import Mathlib

/-!
Shallow embedding of the `rust-gg` game library core, together with proofs
about its two stateful components:

* the per-key input state machine (`src/event.rs`: `KeyState`, `Keys`,
  `Keys::status/held/pressed/not_pressed/update_key/update`), and
* the stack-based scene manager (`src/scene.rs`: `SceneTransition`,
  `StackSceneManager::handle_transition`).

Modelling conventions, used throughout:

* Timestamps are `f64` in the source, but the code only ever stores, copies
  and pattern-matches them — no arithmetic is performed — so they are
  modelled as rationals `Time := Rat`, with `0` standing for `0.0`.
* Rust key codes (`VirtualKeyCode` cast to `usize`) are modelled as `Nat`.
* The `VecMap<KeyState>` backing `Keys` is modelled as an association list
  with at most the semantics the code relies on: `lookup` finds the entry
  for a key, `vmInsert` replaces an existing entry or appends a new one.
* A Rust `panic!` is modelled as an explicit error value (`Except.error`
  for `Keys::update_key`; the `TransResult.panicked` constructor for the
  scene manager, which also records the manager state at the moment of the
  panic so that claims about "the stack when the failure is detected" can
  be stated).
-/

namespace GG

/-- Timestamps (`f64` in the source; only stored and compared, never used
arithmetically, so a rational model is faithful to every use site). -/
abbrev Time := Rat

/-- The four key states of `event.rs`. Each variant carries the timestamp
stored at its last transition. -/
inductive KeyState where
  | Pressed (t : Time)
  | Held (t : Time)
  | Released (t : Time)
  | NotPressed (t : Time)
deriving DecidableEq, Repr

/-- Glutin's raw edge type (`ElementState`): a hardware event is either a
press or a release. -/
inductive ElementState where
  | Pressed
  | Released
deriving DecidableEq, Repr

/-- Replace the binding of `key` if present, otherwise append it: the update
semantics of `VecMap::insert` / `get_mut`-assignment used by `Keys`. -/
def vmInsert (l : List (Nat × KeyState)) (key : Nat) (v : KeyState) :
    List (Nat × KeyState) :=
  match l with
  | [] => [(key, v)]
  | (k0, v0) :: rest =>
    if k0 = key then (key, v) :: rest else (k0, v0) :: vmInsert rest key v

/-- The `Keys` struct of `event.rs`: a `VecMap<KeyState>` keyed by the key
code, modelled as an association list. -/
structure Keys where
  keys : List (Nat × KeyState)
deriving DecidableEq, Repr

/-- `Keys::new`. -/
def Keys.new : Keys := ⟨[]⟩

/-- `Keys::status`: the stored state of `key`, defaulting to
`NotPressed(0.0)` when the key has never been observed. The Rust receiver is
`&self`, and the model is a pure function `Keys → Nat → KeyState`: the query
cannot materialize an entry in storage. -/
def Keys.status (ks : Keys) (key : Nat) : KeyState :=
  (ks.keys.lookup key).getD (KeyState.NotPressed 0)

/-- `Keys::held`: true for `Pressed` or `Held`. -/
def Keys.held (ks : Keys) (key : Nat) : Bool :=
  match ks.status key with
  | .Pressed _ | .Held _ => true
  | .Released _ | .NotPressed _ => false

/-- `Keys::pressed`: true only on the `Pressed` edge. -/
def Keys.pressed (ks : Keys) (key : Nat) : Bool :=
  match ks.status key with
  | .Pressed _ => true
  | .Released _ | .NotPressed _ | .Held _ => false

/-- `Keys::not_pressed`: literally `!self.pressed(key)` in the source. -/
def Keys.not_pressed (ks : Keys) (key : Nat) : Bool :=
  !ks.pressed key

/-- `Keys::update_key`. The source first mutates the entry through `get_mut`
when the key is stored (panicking on a contradictory `(edge, state)` pair),
and afterwards runs `if !self.keys.contains_key(key) { insert Pressed(time) }`;
since the first phase never removes a key, the two phases collapse to this
single match. A panic is modelled as `Except.error`. -/
def Keys.update_key (ks : Keys) (key : Nat) (state : ElementState)
    (time : Time) : Except String Keys :=
  match ks.keys.lookup key with
  | some keystate =>
    match state, keystate with
    | .Pressed, .NotPressed _ => .ok ⟨vmInsert ks.keys key (.Pressed time)⟩
    | .Released, .Held _ => .ok ⟨vmInsert ks.keys key (.Released time)⟩
    | .Pressed, .Held _ => .ok ks
    | _, _ => .error "Received an impossible pair! That should not happen!"
  | none => .ok ⟨vmInsert ks.keys key (.Pressed time)⟩

/-- The per-entry body of the `Keys::update` loop. Note the first arm: the
Rust match is `KeyState::Pressed(time) => *value = KeyState::Held(time)`,
whose pattern binding `time` SHADOWS the `time` argument of `update`, so a
`Pressed` key keeps its press timestamp when it becomes `Held`; only the
`Released → NotPressed` arm uses the argument. -/
def KeyState.advance (time : Time) : KeyState → KeyState
  | .Pressed t => .Held t
  | .Released _ => .NotPressed time
  | s => s

/-- `Keys::update`: the per-frame advance, applied to every stored entry. -/
def Keys.update (ks : Keys) (time : Time) : Keys :=
  ⟨ks.keys.map (fun kv => (kv.1, kv.2.advance time))⟩

/-- Looking a key up after mapping a function over the values of an
association list yields the function applied to the original value. -/
theorem lookup_map_value (l : List (Nat × KeyState)) (k : Nat) (v : KeyState)
    (f : KeyState → KeyState) (h : l.lookup k = some v) :
    (l.map (fun kv => (kv.1, f kv.2))).lookup k = some (f v) := by
  induction l with
  | nil => simp at h
  | cons hd tl ih =>
    simp only [List.lookup, List.map] at h ⊢
    by_cases hk : k = hd.1
    · simp [hk] at h ⊢
      rw [h]
    · have hb : (k == hd.1) = false := by simpa using hk
      simp [hb] at h ⊢
      exact ih h

/-- C9. `Keys::not_pressed` returns the boolean complement of
`Keys::pressed` on every key table and key. -/
theorem not_pressed_complement_pressed (ks : Keys) (key : Nat) :
    ks.not_pressed key = !ks.pressed key :=
  rfl

/-- C8. A key never observed by `update_key` (no stored entry) reports
`NotPressed(0)` from `status`; `status` takes `&self` — its model is a pure
function returning only a `KeyState` — so the query materializes no entry. -/
theorem status_unobserved_notpressed_zero (ks : Keys) (key : Nat)
    (h : ks.keys.lookup key = none) :
    ks.status key = KeyState.NotPressed 0 := by
  simp [Keys.status, h]

/-- Witness for C8: the fresh table of `Keys::new` reports `NotPressed(0)`
for key `0`. -/
theorem status_unobserved_witness :
    Keys.new.status 0 = KeyState.NotPressed 0 :=
  status_unobserved_notpressed_zero Keys.new 0 rfl

/-- Counterexample for C2 as stated: advancing a table holding
`Pressed(5)` at timestamp `7` yields `Held(5)` — the press timestamp, not
the `update` argument `7` required by the claim (the Rust pattern binding
shadows the argument). -/
theorem update_pressed_keeps_timestamp_cex :
    (Keys.update ⟨[(0, KeyState.Pressed 5)]⟩ 7).status 0 = KeyState.Held 5
      ∧ KeyState.Held 5 ≠ KeyState.Held 7 := by
  refine ⟨rfl, ?_⟩
  decide

/-- C2 amended. The per-frame advance maps every stored entry pointwise:
`Pressed(t) ↦ Held(t)` — preserving the press timestamp rather than using
the `update` argument — `Released(_) ↦ NotPressed(timestamp)` with the
argument, and `Held`/`NotPressed` unchanged. -/
theorem update_advances_stored_keys (ks : Keys) (time : Time) (key : Nat)
    (s : KeyState) (h : ks.keys.lookup key = some s) :
    (ks.update time).keys.lookup key =
      some (match s with
            | KeyState.Pressed t => KeyState.Held t
            | KeyState.Released _ => KeyState.NotPressed time
            | s => s) := by
  have := lookup_map_value ks.keys key s (KeyState.advance time) h
  cases s <;> simpa [KeyState.advance, Keys.update] using this

/-- Witness for the amended C2: a stored `Pressed(5)` advanced at `7`
is looked up as `Held(5)`. -/
theorem update_advances_stored_keys_witness :
    (Keys.update ⟨[(0, KeyState.Pressed 5)]⟩ 7).keys.lookup 0 =
      some (KeyState.Held 5) :=
  update_advances_stored_keys ⟨[(0, KeyState.Pressed 5)]⟩ 7 0
    (KeyState.Pressed 5) rfl

/-- C3 failing input: a `Released` edge for a key with no stored entry is
not rejected; the code records the key as `Pressed(3)` (the unconditional
insert meant for first presses also catches releases). -/
theorem update_key_absent_release_inserts_pressed :
    Keys.new.update_key 0 ElementState.Released 3 =
      .ok ⟨[(0, KeyState.Pressed 3)]⟩ :=
  rfl

/-- C10. For a key with no stored entry, `update_key` inserts
`Pressed(timestamp)` regardless of the incoming edge. -/
theorem update_key_absent_inserts_pressed (ks : Keys) (key : Nat)
    (es : ElementState) (time : Time) (h : ks.keys.lookup key = none) :
    ks.update_key key es time = .ok ⟨vmInsert ks.keys key (KeyState.Pressed time)⟩ := by
  cases es <;> simp [Keys.update_key, h]

/-- Witness for C10: a press on key `5` of a fresh table stores
`Pressed(2)`. -/
theorem update_key_absent_inserts_pressed_witness :
    Keys.new.update_key 5 ElementState.Pressed 2 =
      .ok ⟨vmInsert Keys.new.keys 5 (KeyState.Pressed 2)⟩ :=
  update_key_absent_inserts_pressed Keys.new 5 ElementState.Pressed 2 rfl

/-- A scene of `scene.rs`: a trait object `Box<Scene<State=T>>` with an id
(`HasId::get_id`) and the two lifecycle hooks the manager invokes, `enter`
and `leave`, each taking the shared state by exclusive reference (modelled
as `T → T`). The `label` field stands for the identity of the boxed
instance (which Rust tracks by allocation); the manager never reads it, it
only serves to name the instance in the call trace. The remaining hooks
(`keypress`, `display`, `tick`) are driver-side and never invoked by
`handle_transition`, so they are not part of the model. -/
structure Scene (T : Type) where
  label : Nat
  id : Nat
  enter : T → T
  leave : T → T

/-- The `SceneTransition` enum of `scene.rs`. -/
inductive SceneTransition (T : Type) where
  | nothing
  | push (s : Scene T)
  | pop
  | popUntil (id : Nat)

/-- The `StackSceneManager` struct: the owned scenes plus the shared state.
The Rust `Vec` keeps the top of the stack at its END; the model stores the
mirror image, head of the list = top of the stack, so `Vec::push` is `cons`,
`Vec::pop` is `tail`, and `Vec::last` is `head?`. -/
structure StackSceneManager (T : Type) where
  scenes : List (Scene T)
  state : T

/-- An observed lifecycle call made by the manager, naming the instance it
was made on. -/
inductive Ev where
  | enter (label : Nat)
  | leave (label : Nat)
deriving DecidableEq, Repr

/-- Result of `handle_transition`: either the updated manager together with
the lifecycle calls it made (in order), or a Rust `panic!`, which records
the manager state and the calls made up to the moment of the panic, plus
the panic message from the source. -/
inductive TransResult (T : Type) where
  | ok (m : StackSceneManager T) (evs : List Ev)
  | panicked (m : StackSceneManager T) (evs : List Ev) (msg : String)

/-- The `while length > 0` loop of the `PopUntil` arm: repeatedly `pop` the
top while its `get_id()` differs from the target, stopping when a matching
scene becomes top or the stack empties. -/
def popUntilLoop {T : Type} (id : Nat) : List (Scene T) → List (Scene T)
  | [] => []
  | s :: rest => if s.id = id then s :: rest else popUntilLoop id rest

/-- `StackSceneManager::handle_transition`, arm by arm:

* `Nothing`: no mutation, no calls.
* `Push(new)`: `leave` on the current top if one exists, push, `enter` on
  the new top.
* `Pop`: `Vec::pop`; if a scene came off, `leave` it; silently nothing on
  an empty stack.
* `PopUntil(id)`: panic on a stack of 0 or 1 scenes (stack untouched);
  otherwise `leave` the current top, run the pop loop, then panic if the
  loop emptied the stack and `enter` the new top if not. -/
def handle_transition {T : Type} (m : StackSceneManager T) :
    SceneTransition T → TransResult T
  | .nothing => .ok m []
  | .push s =>
    match m.scenes with
    | [] => .ok ⟨[s], s.enter m.state⟩ [.enter s.label]
    | t :: rest =>
      .ok ⟨s :: t :: rest, s.enter (t.leave m.state)⟩
        [.leave t.label, .enter s.label]
  | .pop =>
    match m.scenes with
    | [] => .ok m []
    | t :: rest => .ok ⟨rest, t.leave m.state⟩ [.leave t.label]
  | .popUntil id =>
    match m.scenes with
    | [] => .panicked m [] "Tried to pop until on an empty stack."
    | [_t] =>
      .panicked m [] "Tried to pop until a nonexistant stack with 1 element."
    | t :: t2 :: rest =>
      match popUntilLoop id (t :: t2 :: rest) with
      | [] =>
        .panicked ⟨[], t.leave m.state⟩ [.leave t.label]
          "Emptied the stack in a PopUntil, use Quit instead if this is wanted."
      | f :: rem =>
        .ok ⟨f :: rem, f.enter (t.leave m.state)⟩
          [.leave t.label, .enter f.label]

/-- Apply a list of transitions in order through `handle_transition` (the
driver's per-frame `handle_transition(answer)` calls), accumulating the
lifecycle-call trace; a panic aborts the run. -/
def run {T : Type} (m : StackSceneManager T) :
    List (SceneTransition T) → TransResult T
  | [] => .ok m []
  | t :: ts =>
    match handle_transition m t with
    | .ok m1 evs =>
      match run m1 ts with
      | .ok m2 evs2 => .ok m2 (evs ++ evs2)
      | .panicked m2 evs2 msg => .panicked m2 (evs ++ evs2) msg
    | .panicked m1 evs msg => .panicked m1 evs msg

/-- Number of `enter` calls made on the instance `label` in a trace. -/
def enterCount (evs : List Ev) (label : Nat) : Nat :=
  evs.countP (fun e => e = Ev.enter label)

/-- Number of `leave` calls made on the instance `label` in a trace. -/
def leaveCount (evs : List Ev) (label : Nat) : Nat :=
  evs.countP (fun e => e = Ev.leave label)

/-- The transition is a `Push` or a `Pop`. -/
def PushPop {T : Type} : SceneTransition T → Prop
  | .push _ => True
  | .pop => True
  | _ => False

/-- Labels of the scenes pushed by a transition list, in order. -/
def pushedLabels {T : Type} : List (SceneTransition T) → List Nat
  | [] => []
  | .push s :: ts => s.label :: pushedLabels ts
  | _ :: ts => pushedLabels ts

/-- Shared state for the concrete scenario scenes: a pair of counters
(total `enter` calls, total `leave` calls), the `TestData` of the source's
own tests. -/
abbrev CountState := Nat × Nat

/-- Scenario scene A: label 0, id 0, counting enters and leaves. -/
def sceneA : Scene CountState :=
  ⟨0, 0, fun p => (p.1 + 1, p.2), fun p => (p.1, p.2 + 1)⟩

/-- Scenario scene B: label 1, id 1, counting enters and leaves. -/
def sceneB : Scene CountState :=
  ⟨1, 1, fun p => (p.1 + 1, p.2), fun p => (p.1, p.2 + 1)⟩

/-- Scenario scene C: label 2, id 2, counting enters and leaves. -/
def sceneC : Scene CountState :=
  ⟨2, 2, fun p => (p.1 + 1, p.2), fun p => (p.1, p.2 + 1)⟩

/-- If no scene in the list carries the target id, the pop loop empties the
stack. -/
theorem popUntilLoop_of_forall_ne {T : Type} (id : Nat) (l : List (Scene T))
    (h : ∀ s ∈ l, s.id ≠ id) : popUntilLoop id l = [] := by
  induction l with
  | nil => rfl
  | cons hd tl ih =>
    have hhd : hd.id ≠ id := h hd (by simp)
    simp only [popUntilLoop, if_neg hhd]
    exact ih (fun s hs => h s (by simp [hs]))

/-- If some scene in the list carries the target id, the pop loop drops the
maximal prefix of scenes with other ids and stops with the first match on
top. -/
theorem popUntilLoop_find {T : Type} (id : Nat) (l : List (Scene T))
    (h : ∃ s ∈ l, s.id = id) :
    ∃ dropped f rem, l = dropped ++ f :: rem ∧ (∀ s ∈ dropped, s.id ≠ id)
      ∧ f.id = id ∧ popUntilLoop id l = f :: rem := by
  induction l with
  | nil => simp at h
  | cons hd tl ih =>
    by_cases hid : hd.id = id
    · exact ⟨[], hd, tl, by simp, by simp, hid, by simp [popUntilLoop, hid]⟩
    · have htl : ∃ s ∈ tl, s.id = id := by
        obtain ⟨s, hs, hsid⟩ := h
        rcases List.mem_cons.mp hs with rfl | hmem
        · exact absurd hsid hid
        · exact ⟨s, hmem, hsid⟩
      obtain ⟨dropped, f, rem, hdecomp, hdrop, hfid, hloop⟩ := ih htl
      refine ⟨hd :: dropped, f, rem, by simp [hdecomp], ?_, hfid, ?_⟩
      · intro s hs
        rcases List.mem_cons.mp hs with rfl | hmem
        · exact hid
        · exact hdrop s hmem
      · simp [popUntilLoop, hid, hloop]

/-- C6. `Push(new)` on a stack with top `t` calls `t.leave`, then pushes
`new`, then calls `new.enter` — exactly those two calls in that order — and
the previous top `t` remains on the stack; on an empty stack it pushes and
enters with no `leave` call. -/
theorem push_spec (T : Type) (s t : Scene T) (rest : List (Scene T))
    (st : T) :
    handle_transition ⟨t :: rest, st⟩ (.push s) =
        .ok ⟨s :: t :: rest, s.enter (t.leave st)⟩
          [.leave t.label, .enter s.label]
      ∧ t ∈ ([s, t] : List (Scene T)) ++ rest
      ∧ handle_transition ⟨([] : List (Scene T)), st⟩ (.push s) =
          .ok ⟨[s], s.enter st⟩ [.enter s.label] :=
  ⟨rfl, by simp, rfl⟩

/-- C7. `Pop` on a stack with top `t` removes `t` and makes exactly one
lifecycle call, `t.leave`, on the removed scene; on an empty stack it is a
silent no-op, returning the manager (stack and shared state) unchanged with
no calls. -/
theorem pop_spec (T : Type) (t : Scene T) (rest : List (Scene T)) (st : T) :
    handle_transition ⟨t :: rest, st⟩ (.pop) =
        .ok ⟨rest, t.leave st⟩ [.leave t.label]
      ∧ handle_transition ⟨([] : List (Scene T)), st⟩ (.pop) =
          .ok ⟨[], st⟩ [] :=
  ⟨rfl, rfl⟩

/-- C4. `PopUntil(id)` panics on a stack of 0 or 1 scenes with the stack
untouched; on a stack of at least 2 scenes none of which carries `id` it
panics after emptying the stack (the failure is detected only once the pop
loop has removed every scene, the top having been left). -/
theorem popUntil_failure_spec (T : Type) (m : StackSceneManager T)
    (id : Nat) :
    (m.scenes.length ≤ 1 →
      ∃ msg, handle_transition m (.popUntil id) = .panicked m [] msg)
    ∧ (2 ≤ m.scenes.length → (∀ s ∈ m.scenes, s.id ≠ id) →
      ∃ t rest, m.scenes = t :: rest ∧
        handle_transition m (.popUntil id) =
          .panicked ⟨[], t.leave m.state⟩ [.leave t.label]
            "Emptied the stack in a PopUntil, use Quit instead if this is wanted.") := by
  obtain ⟨scenes, st⟩ := m
  match scenes with
  | [] => exact ⟨fun _ => ⟨_, rfl⟩, fun h _ => by simp at h⟩
  | [t] => exact ⟨fun _ => ⟨_, rfl⟩, fun h _ => by simp at h⟩
  | t :: t2 :: rest =>
    refine ⟨fun h => by simp at h, fun _ hne => ⟨t, t2 :: rest, rfl, ?_⟩⟩
    have hloop := popUntilLoop_of_forall_ne id (t :: t2 :: rest) hne
    simp [handle_transition, hloop]

/-- Witness for C4: `PopUntil(7)` on the two-scene stack `[B, A]` (neither
of which has id 7) panics with the stack emptied, after leaving the top. -/
theorem popUntil_failure_spec_witness :
    handle_transition
        (⟨[sceneB, sceneA], (0, 0)⟩ : StackSceneManager CountState)
        (.popUntil 7) =
      .panicked ⟨[], sceneB.leave (0, 0)⟩ [.leave sceneB.label]
        "Emptied the stack in a PopUntil, use Quit instead if this is wanted." := by
  obtain ⟨t, rest, hdec, heq⟩ :=
    (popUntil_failure_spec CountState ⟨[sceneB, sceneA], (0, 0)⟩ 7).2
      (by simp) (by simp [sceneA, sceneB])
  injection hdec with h1 h2
  subst h1
  exact heq

/-- C1. On a stack of at least two scenes one of which carries `id`,
`PopUntil(id)` calls `leave` exactly once, on the original top; removes
scenes from the top — making no lifecycle call on the intermediate removed
scenes — until the topmost scene with that id is top; and calls `enter`
exactly once, on that scene. In particular the source's own scenario —
push A(0), push B(1), push C(2), then `PopUntil(0)` — ends with stack
`[A]`, 4 `enter` calls and 3 `leave` calls in total. -/
theorem popUntil_leave_enter_spec (T : Type) (m : StackSceneManager T)
    (id : Nat) (h2 : 2 ≤ m.scenes.length)
    (hmem : ∃ s ∈ m.scenes, s.id = id) :
    (∃ top rest2 dropped f rem,
      m.scenes = top :: rest2 ∧
      m.scenes = dropped ++ f :: rem ∧
      (∀ s ∈ dropped, s.id ≠ id) ∧ f.id = id ∧
      handle_transition m (.popUntil id) =
        .ok ⟨f :: rem, f.enter (top.leave m.state)⟩
          [.leave top.label, .enter f.label])
    ∧ run ⟨([] : List (Scene CountState)), (0, 0)⟩
        [.push sceneA, .push sceneB, .push sceneC, .popUntil 0] =
        .ok ⟨[sceneA], (4, 3)⟩
          [.enter 0, .leave 0, .enter 1, .leave 1, .enter 2, .leave 2,
            .enter 0] := by
  refine ⟨?_, rfl⟩
  obtain ⟨scenes, st⟩ := m
  match scenes with
  | [] => simp at h2
  | [t] => simp at h2
  | t :: t2 :: rest =>
    obtain ⟨dropped, f, rem, hdec, hdrop, hfid, hloop⟩ :=
      popUntilLoop_find id (t :: t2 :: rest) hmem
    exact ⟨t, t2 :: rest, dropped, f, rem, rfl, hdec, hdrop, hfid,
      by simp [handle_transition, hloop]⟩

/-- Witness for C1: the scenario itself, extracted by applying the theorem
to the stack `[C, B, A]` (top first) with target id 0. -/
theorem popUntil_leave_enter_spec_witness :
    run ⟨([] : List (Scene CountState)), (0, 0)⟩
        [.push sceneA, .push sceneB, .push sceneC, .popUntil 0] =
      .ok ⟨[sceneA], (4, 3)⟩
        [.enter 0, .leave 0, .enter 1, .leave 1, .enter 2, .leave 2,
          .enter 0] :=
  (popUntil_leave_enter_spec CountState
    ⟨[sceneC, sceneB, sceneA], (0, 0)⟩ 0 (by simp)
    ⟨sceneA, by simp, rfl⟩).2

/-- An empty trace holds no `enter` calls. -/
@[simp] theorem enterCount_nil (l : Nat) : enterCount [] l = 0 := rfl

/-- An empty trace holds no `leave` calls. -/
@[simp] theorem leaveCount_nil (l : Nat) : leaveCount [] l = 0 := rfl

/-- Enter counts add up over concatenated traces. -/
@[simp] theorem enterCount_append (E E' : List Ev) (l : Nat) :
    enterCount (E ++ E') l = enterCount E l + enterCount E' l := by
  simp [enterCount, List.countP_append]

/-- Enter count of a trace extended at the front. -/
@[simp] theorem enterCount_cons (e : Ev) (E : List Ev) (l : Nat) :
    enterCount (e :: E) l = enterCount E l + (if e = Ev.enter l then 1 else 0) := by
  simp [enterCount, List.countP_cons]

/-- Leave counts add up over concatenated traces. -/
@[simp] theorem leaveCount_append (E E' : List Ev) (l : Nat) :
    leaveCount (E ++ E') l = leaveCount E l + leaveCount E' l := by
  simp [leaveCount, List.countP_append]

/-- Leave count of a trace extended at the front. -/
@[simp] theorem leaveCount_cons (e : Ev) (E : List Ev) (l : Nat) :
    leaveCount (e :: E) l = leaveCount E l + (if e = Ev.leave l then 1 else 0) := by
  simp [leaveCount, List.countP_cons]

/-- Counterexample for C5 as stated: after the Push/Pop sequence
`[Push A, Push B, Pop, Pop]` the instance A (label 0) has 1 `enter` call
but 2 `leave` calls — `Pop` never re-enters the scene it re-exposes, yet
that scene is left again when later popped — so "enter count is always
greater than or equal to leave count" fails. -/
theorem stack_invariant_cex :
    run ⟨([] : List (Scene CountState)), (0, 0)⟩
        [.push sceneA, .push sceneB, .pop, .pop] =
      .ok ⟨[], (2, 3)⟩ [.enter 0, .leave 0, .enter 1, .leave 1, .leave 0]
    ∧ ¬ (leaveCount [.enter 0, .leave 0, .enter 1, .leave 1, .leave 0] 0 ≤
        enterCount [.enter 0, .leave 0, .enter 1, .leave 1, .leave 0] 0) :=
  ⟨rfl, by decide⟩

/-- The invariant maintained by Push/Pop sequences: every instance is
entered at most once, every instance on the stack has been entered exactly
once, and every instance other than the current top has at least as many
`leave` calls as `enter` calls. -/
def Inv {T : Type} (m : StackSceneManager T) (E : List Ev) : Prop :=
  (∀ l, enterCount E l ≤ 1)
  ∧ (∀ s ∈ m.scenes, enterCount E s.label = 1)
  ∧ (∀ l, (∀ top rest, m.scenes = top :: rest → top.label ≠ l) →
      enterCount E l ≤ leaveCount E l)

/-- `Inv` is preserved by running any Push/Pop transition list whose
pushed instances carry pairwise-distinct labels that are fresh for the
trace accumulated so far. -/
theorem run_inv {T : Type} (ts : List (SceneTransition T)) :
    ∀ (m0 : StackSceneManager T) (E0 : List Ev),
      (∀ t ∈ ts, PushPop t) → (pushedLabels ts).Nodup →
      (∀ l ∈ pushedLabels ts, enterCount E0 l = 0) →
      Inv m0 E0 →
      ∀ m E, run m0 ts = .ok m E → Inv m (E0 ++ E) := by
  induction ts with
  | nil =>
    intro m0 E0 _ _ _ hinv m E hrun
    simp only [run] at hrun
    injection hrun with hm hE
    subst hm; subst hE
    simpa using hinv
  | cons t ts ih =>
    intro m0 E0 hpp hnd hfresh hinv m E hrun
    obtain ⟨h1, h2, h3⟩ := hinv
    obtain ⟨scenes0, st0⟩ := m0
    cases t with
    | nothing =>
      have hc := hpp SceneTransition.nothing (by simp)
      simp [PushPop] at hc
    | popUntil id =>
      have hc := hpp (SceneTransition.popUntil id) (by simp)
      simp [PushPop] at hc
    | push s =>
      have hs0 : enterCount E0 s.label = 0 := hfresh s.label (by simp [pushedLabels])
      have hndc : s.label ∉ pushedLabels ts ∧ (pushedLabels ts).Nodup := by
        have h := hnd
        simp [pushedLabels] at h
        exact h
      have hsnot := hndc.1
      cases scenes0 with
      | nil =>
        simp only [run, handle_transition] at hrun
        cases hr : run (⟨[s], s.enter st0⟩ : StackSceneManager T) ts with
        | panicked m2 E2 msg => rw [hr] at hrun; cases hrun
        | ok m2 E2 =>
          rw [hr] at hrun
          injection hrun with hm hE
          subst hm; subst hE
          have := ih ⟨[s], s.enter st0⟩ (E0 ++ [Ev.enter s.label])
            (fun u hu => hpp u (by simp [hu]))
            hndc.2
            (by
              intro l hl
              have hne : s.label ≠ l := fun h => hsnot (h ▸ hl)
              simp [enterCount_append, enterCount_cons, hne, hfresh l (by simp [pushedLabels, hl])])
            (by
              refine ⟨?_, ?_, ?_⟩
              · intro l
                by_cases hl : s.label = l
                · subst hl; simp [enterCount_append, enterCount_cons, hs0]
                · simp [enterCount_append, enterCount_cons, hl]
                  exact h1 l
              · intro x hx
                simp at hx
                subst hx
                simp [enterCount_append, enterCount_cons, hs0]
              · intro l hl
                have hne : s.label ≠ l := hl s [] rfl
                simp [enterCount_append, enterCount_cons, leaveCount_append, leaveCount_cons, hne]
                exact h3 l (by intro top rest h; cases h))
            m2 E2 hr
          simpa [List.append_assoc] using this
      | cons t0 rest0 =>
        simp only [run, handle_transition] at hrun
        cases hr : run (⟨s :: t0 :: rest0, s.enter (t0.leave st0)⟩ : StackSceneManager T) ts with
        | panicked m2 E2 msg => rw [hr] at hrun; cases hrun
        | ok m2 E2 =>
          rw [hr] at hrun
          injection hrun with hm hE
          subst hm; subst hE
          have ht0 : enterCount E0 t0.label = 1 := h2 t0 (by simp)
          have := ih ⟨s :: t0 :: rest0, s.enter (t0.leave st0)⟩
            (E0 ++ [Ev.leave t0.label, Ev.enter s.label])
            (fun u hu => hpp u (by simp [hu]))
            hndc.2
            (by
              intro l hl
              have hne : s.label ≠ l := fun h => hsnot (h ▸ hl)
              simp [enterCount_append, enterCount_cons, hne, hfresh l (by simp [pushedLabels, hl])])
            (by
              refine ⟨?_, ?_, ?_⟩
              · intro l
                by_cases hl : s.label = l
                · subst hl; simp [enterCount_append, enterCount_cons, hs0]
                · simp [enterCount_append, enterCount_cons, hl]
                  exact h1 l
              · intro x hx
                simp at hx
                rcases hx with rfl | hx
                · simp [enterCount_append, enterCount_cons, hs0]
                · have hx' : x ∈ t0 :: rest0 := by
                    rcases hx with rfl | hx
                    · simp
                    · simp [hx]
                  have hxe : enterCount E0 x.label = 1 := h2 x hx'
                  have hne : s.label ≠ x.label := by
                    intro h
                    rw [h] at hs0
                    omega
                  simp [enterCount_append, enterCount_cons, hne, hxe]
              · intro l hl
                have hne : s.label ≠ l := hl s (t0 :: rest0) rfl
                by_cases hl0 : t0.label = l
                · subst hl0
                  simp [enterCount_append, enterCount_cons, leaveCount_append, leaveCount_cons, hne, ht0]
                · simp [enterCount_append, enterCount_cons, leaveCount_append, leaveCount_cons, hne, hl0]
                  exact h3 l (by
                    intro top rest h
                    injection h with hh1 hh2
                    subst hh1
                    exact hl0))
            m2 E2 hr
          simpa [List.append_assoc] using this
    | pop =>
      cases scenes0 with
      | nil =>
        simp only [run, handle_transition] at hrun
        cases hr : run (⟨[], st0⟩ : StackSceneManager T) ts with
        | panicked m2 E2 msg => rw [hr] at hrun; cases hrun
        | ok m2 E2 =>
          rw [hr] at hrun
          injection hrun with hm hE
          subst hm; subst hE
          have := ih ⟨[], st0⟩ (E0 ++ [])
            (fun u hu => hpp u (by simp [hu]))
            (by simpa [pushedLabels] using hnd)
            (by simpa using hfresh)
            (by simpa using ⟨h1, h2, h3⟩)
            m2 E2 hr
          simpa [List.append_assoc] using this
      | cons t0 rest0 =>
        simp only [run, handle_transition] at hrun
        cases hr : run (⟨rest0, t0.leave st0⟩ : StackSceneManager T) ts with
        | panicked m2 E2 msg => rw [hr] at hrun; cases hrun
        | ok m2 E2 =>
          rw [hr] at hrun
          injection hrun with hm hE
          subst hm; subst hE
          have ht0 : enterCount E0 t0.label = 1 := h2 t0 (by simp)
          have := ih ⟨rest0, t0.leave st0⟩ (E0 ++ [Ev.leave t0.label])
            (fun u hu => hpp u (by simp [hu]))
            (by simpa [pushedLabels] using hnd)
            (by
              intro l hl
              simp [enterCount_append, enterCount_cons, hfresh l (by simp [pushedLabels, hl])])
            (by
              refine ⟨?_, ?_, ?_⟩
              · intro l
                simp [enterCount_append, enterCount_cons]
                exact h1 l
              · intro x hx
                simp [enterCount_append, enterCount_cons]
                exact h2 x (by simp [hx])
              · intro l _
                by_cases hl0 : t0.label = l
                · subst hl0
                  simp [enterCount_append, enterCount_cons, leaveCount_append, leaveCount_cons, ht0]
                · simp [enterCount_append, enterCount_cons, leaveCount_append, leaveCount_cons, hl0]
                  exact h3 l (by
                    intro top rest h
                    injection h with hh1 hh2
                    subst hh1
                    exact hl0))
            m2 E2 hr
          simpa [List.append_assoc] using this

/-- C5 amended. For every sequence of Push and Pop transitions (with
pairwise-distinct pushed instances) applied from an empty manager: every
scene instance receives `enter` at most once; every instance on the final
stack has been entered exactly once; and an instance with strictly more
`enter` than `leave` calls (necessarily 1 versus 0, its only call being
that `enter`) is the current top-of-stack. The converse, and the claimed
`enter ≥ leave` bound, fail: `Pop` does not re-enter the scene it exposes
(see the counterexample), so a re-exposed top sits at `enter = leave` and
a later `leave` can push the count past `enter`. -/
theorem stack_invariant_amended (T : Type) (st : T)
    (ts : List (SceneTransition T))
    (hpp : ∀ t ∈ ts, PushPop t) (hnd : (pushedLabels ts).Nodup)
    (m : StackSceneManager T) (E : List Ev)
    (hrun : run ⟨[], st⟩ ts = .ok m E) :
    (∀ l, enterCount E l ≤ 1)
    ∧ (∀ s ∈ m.scenes, enterCount E s.label = 1)
    ∧ (∀ l, leaveCount E l < enterCount E l →
        enterCount E l = 1 ∧ leaveCount E l = 0 ∧
        ∃ top rest, m.scenes = top :: rest ∧ top.label = l) := by
  have hinv := run_inv ts ⟨[], st⟩ [] hpp hnd (by simp) ⟨by simp, by simp, by simp⟩ m E hrun
  rw [List.nil_append] at hinv
  obtain ⟨h1, h2, h3⟩ := hinv
  refine ⟨h1, h2, ?_⟩
  intro l hlt
  have hs := h1 l
  by_cases htop : ∀ top rest, m.scenes = top :: rest → top.label ≠ l
  · exact absurd (h3 l htop) (by omega)
  · push_neg at htop
    obtain ⟨top, rest, hdec, hlab⟩ := htop
    exact ⟨by omega, by omega, top, rest, hdec, hlab⟩

/-- Witness for the amended C5: after `[Push A, Push B, Pop]` the
instance A has at most one `enter` call. -/
theorem stack_invariant_amended_witness :
    enterCount [Ev.enter 0, Ev.leave 0, Ev.enter 1, Ev.leave 1] 0 ≤ 1 :=
  (stack_invariant_amended CountState (0, 0)
    [.push sceneA, .push sceneB, .pop]
    (by intro t ht; fin_cases ht <;> trivial)
    (by decide)
    ⟨[sceneA], (2, 2)⟩ [Ev.enter 0, Ev.leave 0, Ev.enter 1, Ev.leave 1]
    rfl).1 0

end GG
